import Mathlib

/-!
# Verification of the newsfeed ingestion and reconciliation pipeline

A shallow embedding, in Lean 4, of the feed pipeline implemented in
`src/app.js` (with `parsePubDate` taken from the second source file, an
earlier revision of the same application).  Pure string/record processing
is translated directly; browser platform services (DOMParser record
extraction, HTML stripping/unescaping, regexp image extraction, the host
time zone) are passed in explicitly as function-valued parameters; network
interactions are passed in as explicit outcome values; the mutable
module-level state (`allItems`, `pendingNew`) becomes an explicit state
record threaded through the operations.
-/

namespace Newsfeed

/-! ## Configuration constants (`CONFIG` in app.js) -/

def INITIAL_POSTS : Nat := 20

def POLL_INTERVAL_MS : Int := 30000

def TIME_WINDOW_MS : Int := 10 * 60000

/-! ## Dates

A date token is the (already lexed) shape of a feed date string.  The
constructors correspond to the disjoint string shapes the two date
functions in the source distinguish:

* `fmtB f`            — `"YYYY-MM-DD HH:MM:SS"`, no zone information
                         (the rss2json proxy form; "Format B" in app.js);
* `rfc2822 f off`     — an RFC-2822 style string with trailing numeric
                         offset `±HHMM` (offset given in minutes);
* `isoZ f`            — ISO-8601 ending in `Z`;
* `isoOffset f off`   — ISO-8601 ending in a numeric offset `±HH:MM`;
* `invalid`           — any other non-empty token, i.e. one every parse
                         path of the source rejects (an `Invalid Date` in
                         JS, both as-is and after the space→`T` /
                         append-`Z` rewriting).

`DateFields` carries in-range calendar fields (the wall-clock digits that
appear literally in the token).  A missing/empty date string is modelled
as `none : Option DateToken`.
-/

structure DateFields where
  year : Int
  month : Int
  day : Int
  hour : Int
  minute : Int
  second : Int
deriving DecidableEq, Repr

inductive DateToken where
  | fmtB (f : DateFields)
  | rfc2822 (f : DateFields) (offsetMin : Int)
  | isoZ (f : DateFields)
  | isoOffset (f : DateFields) (offsetMin : Int)
  | invalid
deriving DecidableEq, Repr

/-- Days since 1970-01-01 of a civil date (standard days-from-civil
algorithm; `/` and `%` on `Int` are Euclidean, which for the positive
divisors used here is floor division). -/
def daysFromCivil (f : DateFields) : Int :=
  let y := if f.month ≤ 2 then f.year - 1 else f.year
  let era := y / 400
  let yoe := y - era * 400
  let mp := (f.month + 9) % 12
  let doy := (153 * mp + 2) / 5 + f.day - 1
  let doe := yoe * 365 + yoe / 4 - yoe / 100 + doy
  era * 146097 + doe - 719468

/-- Epoch milliseconds of wall-clock fields read as UTC. -/
def epochOfFields (f : DateFields) : Int :=
  daysFromCivil f * 86400000 + f.hour * 3600000 + f.minute * 60000 + f.second * 1000

/-- The host environment's local time zone: the UTC offset (in minutes)
the JS engine applies when a zoneless date string is interpreted as local
wall-clock time.  Passed explicitly; it is the deployment configuration
the spec calls the local-assume policy's "local zone". -/
structure TZPolicy where
  offsetMin : DateFields → Int

/-- `parseFeedDate` of app.js.  `none` input models the empty/missing
string (`if (!str) return null`).  A `fmtB` token matches the
`/^\d{4}-\d{2}-\d{2} \d{2}:\d{2}:\d{2}$/` test and is re-joined with `T`
and *no* `Z`, so JS interprets it as local wall-clock time (the epoch is
the UTC epoch of the fields minus the local offset).  Every other token is
handed to `new Date(str)`, which honours an embedded offset and yields
`Invalid Date` (hence `null`) on anything unparseable. -/
def parseFeedDate (tz : TZPolicy) : Option DateToken → Option Int
  | none => none
  | some (DateToken.fmtB f) => some (epochOfFields f - tz.offsetMin f * 60000)
  | some (DateToken.rfc2822 f off) => some (epochOfFields f - off * 60000)
  | some (DateToken.isoZ f) => some (epochOfFields f)
  | some (DateToken.isoOffset f off) => some (epochOfFields f - off * 60000)
  | some DateToken.invalid => none

/-- `parsePubDate` of the earlier revision (second source file).  Its
trusted-offset test is `/[Z+\-]\d{2}:?\d{2}$/`: a trailing `±HHMM` or
`±HH:MM` matches, but a string *ending in the letter `Z`* does not (the
regexp demands four digits after the `[Z+\-]` class).  Such a string falls
into the else branch, which appends a further `Z`, producing e.g.
`"2024-06-10T13:00:00ZZ"` — an invalid date, i.e. `NaN`, which the
callers' `isNaN` guard turns into rejection.  A zoneless `fmtB` token gets
`' '→'T'` plus `Z` and is read as UTC. -/
def parsePubDate : DateToken → Option Int
  | DateToken.fmtB f => some (epochOfFields f)
  | DateToken.rfc2822 f off => some (epochOfFields f - off * 60000)
  | DateToken.isoZ _ => none
  | DateToken.isoOffset f off => some (epochOfFields f - off * 60000)
  | DateToken.invalid => none

/-! ## Items -/

structure Item where
  id : String
  title : String
  link : String
  publishedAt : Int
  sourceName : String
  description : String
  media : Option String
deriving DecidableEq, Repr

/-! ## Raw records and platform services

An `XmlRecord` is the view `normaliseXmlItem` takes of one `item`/`entry`
DOM element: each field is the result of the corresponding
`querySelector`/`getAttribute`/`textContent.trim()` access (`""` / `none`
when absent).  The `Platform` structure carries the browser-provided
string services the source uses (DOM parsing into records, HTML
unescaping and stripping, the `<img src>` regexp match).
-/

structure XmlRecord where
  title : String
  linkText : String
  linkHref : Option String
  pubDate : Option DateToken
  published : Option DateToken
  updated : Option DateToken
  description : String
  summary : String
  contentText : String
  contentUrl : Option String
  enclosurePresent : Bool
  enclosureUrl : Option String
  enclosureType : Option String
  thumbnailUrl : Option String
  rawDescription : String

structure Platform where
  xmlRecords : String → List XmlRecord
  unescapeHtml : String → String
  stripHtml : String → String
  imgSrcMatch : String → Option String

/-- JS whitespace (the ASCII subset relevant to feed fields) for
`String.prototype.trim`. -/
def isJsSpace (c : Char) : Bool := c == ' ' || c == '\t' || c == '\n' || c == '\r'

/-- JS `.trim()`, written over the character list so the kernel can
evaluate it. -/
def jsTrim (s : String) : String :=
  String.mk (((s.toList.dropWhile isJsSpace).reverse.dropWhile isJsSpace).reverse)

/-- JS `.slice(0, n)` on a string, written over the character list so the
kernel can evaluate it. -/
def jsSlice (n : Nat) (s : String) : String := String.mk (s.toList.take n)

/-- Naive substring test on character lists. -/
def containsSub (hay nee : List Char) : Bool :=
  match hay with
  | [] => nee.isEmpty
  | _ :: t => nee.isPrefixOf hay || containsSub t nee

/-- JS `a || b` on strings (empty string is falsy). -/
def jsOr (a b : String) : String := if a = "" then b else a

/-- JS truthiness of a possibly-absent string. -/
def truthyS : Option String → Bool
  | some s => s != ""
  | none => false

/-- JS `a || b` where both sides are possibly-absent strings. -/
def jsOrOpt (a b : Option String) : Option String := if truthyS a then a else b

/-- `/image/i.test s` -/
def imageTypeTest (s : String) : Bool :=
  containsSub (s.toList.map Char.toLower) "image".toList

/-- `extractImgFromHtml` of app.js: regexp match on the HTML, modelled by
the platform's `imgSrcMatch`. -/
def extractImgFromHtml (plat : Platform) (html : String) : Option String :=
  plat.imgSrcMatch html

/-- `extractMediaXml` of app.js: media-content url, else image-typed
enclosure url, else thumbnail url, else `<img src>` scraped from the raw
description. -/
def extractMediaXml (plat : Platform) (item : XmlRecord) : Option String :=
  if truthyS item.contentUrl then item.contentUrl
  else if item.enclosurePresent && imageTypeTest (item.enclosureType.getD "") then
    item.enclosureUrl
  else if truthyS item.thumbnailUrl then item.thumbnailUrl
  else plat.imgSrcMatch item.rawDescription

/-- `get('link') || item.querySelector('link')?.getAttribute('href') || ''` -/
def xmlLink (item : XmlRecord) : String :=
  jsOr item.linkText (item.linkHref.getD "")

/-- `get('pubDate') || get('published') || get('updated') || ''` -/
def xmlDateToken (item : XmlRecord) : Option DateToken :=
  item.pubDate.orElse fun _ => item.published.orElse fun _ => item.updated

/-- `normaliseXmlItem` of app.js: `if (!title || !link || !publishedAt)
return null`, otherwise build the canonical item. -/
def normaliseXmlItem (plat : Platform) (tz : TZPolicy) (item : XmlRecord)
    (sourceName : String) : Option Item :=
  let title := item.title
  let link := xmlLink item
  match parseFeedDate tz (xmlDateToken item) with
  | none => none
  | some publishedAt =>
    if title = "" || link = "" then none
    else
      let description :=
        jsSlice 220 (plat.stripHtml (jsOr item.description (jsOr item.summary item.contentText)))
      let media := extractMediaXml plat item
      some { id := link, title := title, link := link, publishedAt := publishedAt,
             sourceName := sourceName, description := description, media := media }

/-- The record-list half of `parseRssXml`:
`items.map(el => normaliseXmlItem(el, sourceName)).filter(Boolean)`. -/
def normaliseXmlItems (plat : Platform) (tz : TZPolicy) (records : List XmlRecord)
    (sourceName : String) : List Item :=
  (records.map fun el => normaliseXmlItem plat tz el sourceName).filterMap id

/-- `parseRssXml` of app.js: unescape entity-escaped payloads, parse into
records (DOMParser + `querySelectorAll('item, entry')`, supplied by the
platform), normalise each, keep the survivors. -/
def parseRssXml (plat : Platform) (tz : TZPolicy) (xmlText : String)
    (sourceName : String) : List Item :=
  let cleaned := if xmlText.startsWith "&lt;" then plat.unescapeHtml xmlText else xmlText
  normaliseXmlItems plat tz (plat.xmlRecords cleaned) sourceName

/-- One element of the rss2json proxy's `json.items` array. -/
structure RawJsonItem where
  title : Option String
  link : Option String
  pubDate : Option DateToken
  description : Option String
  content : Option String
  enclosureLink : Option String
  thumbnail : Option String

/-- JS falsiness of a possibly-absent string (`undefined` or `""`). -/
def jsFalsy : Option String → Bool
  | none => true
  | some s => s == ""

/-- The per-record body of `parseRss2JsonItems` in app.js:
`if (!title || !link || !publishedAt) return null`, otherwise build the
canonical item. -/
def normaliseJsonItem (plat : Platform) (tz : TZPolicy) (item : RawJsonItem)
    (sourceName : String) : Option Item :=
  let title := item.title.map jsTrim
  let link := item.link.map jsTrim
  let publishedAt := parseFeedDate tz item.pubDate
  if jsFalsy title || jsFalsy link || publishedAt.isNone then none
  else
    let description :=
      jsSlice 220 (plat.stripHtml (jsOr (item.description.getD "") (item.content.getD "")))
    let media :=
      jsOrOpt item.enclosureLink
        (jsOrOpt item.thumbnail (extractImgFromHtml plat (item.description.getD "")))
    some { id := link.getD "", title := title.getD "", link := link.getD "",
           publishedAt := publishedAt.getD 0, sourceName := sourceName,
           description := description, media := media }

/-- `parseRss2JsonItems` of app.js. -/
def parseRss2JsonItems (plat : Platform) (tz : TZPolicy) (items : List RawJsonItem)
    (sourceName : String) : List Item :=
  (items.map fun item => normaliseJsonItem plat tz item sourceName).filterMap id

/-! ## Fetch strategy chain (`fetchFeed` of app.js)

Each of the three strategies runs inside a `try { … } catch { … }` block.
The outcome of a strategy's network interaction (the `fetch`, body read
and JSON decode together) is passed in explicitly: `Outcome.throws` is a
network error / timeout / malformed body (anything that makes an `await`
reject), `Outcome.resp r` a delivered response `r`.  A strategy body is an
`Except`-valued computation: `Except.error` is the exception propagating
out of the `try` body, `Except.ok (some items)` an executed
`return items`, `Except.ok none` a fall-through to the next strategy.
`catchStrat` is the `catch (_) { }` wrapper: it turns an exception into a
fall-through, so no exception ever leaves `fetchFeed`.
-/

inductive Outcome (α : Type) where
  | throws
  | resp (r : α)

/-- Strategy 1 response: `res.ok` plus the body decoded with the feed's
configured encoding (TextDecoder). -/
structure DirectResp where
  ok : Bool
  text : String

/-- Strategy 2 response: `res.ok` plus the rss2json JSON payload
(`json.status`, `json.items`, the latter possibly absent). -/
structure Rss2JsonResp where
  ok : Bool
  status : String
  items : Option (List RawJsonItem)

/-- Strategy 3 response: `res.ok` plus `json.contents` (possibly absent). -/
structure AllOriginsResp where
  ok : Bool
  contents : Option String

/-- Strategy 1 body: direct fetch; on `res.ok`, parse the decoded text and
`return items` only when `items.length > 0`. -/
def strat1 (plat : Platform) (tz : TZPolicy) (feedName : String)
    (o : Outcome DirectResp) : Except Unit (Option (List Item)) :=
  match o with
  | Outcome.throws => Except.error ()
  | Outcome.resp res =>
    Except.ok (if res.ok then
      let items := parseRssXml plat tz res.text feedName
      if items.length > 0 then some items else none
    else none)

/-- Strategy 2 body: rss2json proxy; on `res.ok`, when
`json.status === 'ok' && json.items?.length`, `return` the parsed items
(whatever normalisation yields, even an empty list). -/
def strat2 (plat : Platform) (tz : TZPolicy) (feedName : String)
    (o : Outcome Rss2JsonResp) : Except Unit (Option (List Item)) :=
  match o with
  | Outcome.throws => Except.error ()
  | Outcome.resp res =>
    Except.ok (if res.ok then
      if res.status = "ok" then
        match res.items with
        | some its =>
          if its.length ≠ 0 then some (parseRss2JsonItems plat tz its feedName) else none
        | none => none
      else none
    else none)

/-- Strategy 3 body: allorigins proxy; on `res.ok`, when `json.contents`
is truthy, `return` the XML parse of the contents. -/
def strat3 (plat : Platform) (tz : TZPolicy) (feedName : String)
    (o : Outcome AllOriginsResp) : Except Unit (Option (List Item)) :=
  match o with
  | Outcome.throws => Except.error ()
  | Outcome.resp res =>
    Except.ok (if res.ok then
      match res.contents with
      | some c => if c ≠ "" then some (parseRssXml plat tz c feedName) else none
      | none => none
    else none)

/-- The `catch (_) { }` around each strategy: an exception becomes a
fall-through. -/
def catchStrat (e : Except Unit (Option (List Item))) : Option (List Item) :=
  match e with
  | Except.error _ => none
  | Except.ok r => r

/-- `fetchFeed` of app.js: run the three guarded strategies in order,
returning the first executed `return`, and `[]` when every strategy fell
through or threw. -/
def fetchFeed (plat : Platform) (tz : TZPolicy) (feedName : String)
    (o1 : Outcome DirectResp) (o2 : Outcome Rss2JsonResp)
    (o3 : Outcome AllOriginsResp) : List Item :=
  match catchStrat (strat1 plat tz feedName o1) with
  | some items => items
  | none =>
    match catchStrat (strat2 plat tz feedName o2) with
    | some items => items
    | none =>
      match catchStrat (strat3 plat tz feedName o3) with
      | some items => items
      | none => []

/-! ## Reconciliation engine

`allItems` and `pendingNew` are the module-level mutable state; the
fetched-and-flattened result of `Promise.all(CONFIG.FEEDS.map(fetchFeed))`
is passed in as `fetched`, and `Date.now()` as `now`.  The array `sort`
with comparator `(a, b) => b.publishedAt - a.publishedAt` is a stable sort
by descending `publishedAt`; since a stable sort's output is uniquely
determined by the comparator and the input order, it is modelled by the
(stable) `List.mergeSort`.
-/

structure AppState where
  allItems : List Item
  pendingNew : List Item
deriving DecidableEq, Repr

/-- The comparator `(a, b) => b.publishedAt - a.publishedAt` as a Boolean
"a may precede b" relation. -/
def pubLe (a b : Item) : Bool := decide (b.publishedAt ≤ a.publishedAt)

def sortByPublishedDesc (items : List Item) : List Item :=
  items.mergeSort pubLe

/-- `dedup` of app.js, with the `seen` set explicit: keep an item only if
its `id` has not been seen yet (first-seen-wins). -/
def dedupAux : List Item → List String → List Item
  | [], _ => []
  | i :: rest, seen =>
    if i.id ∈ seen then dedupAux rest seen
    else i :: dedupAux rest (i.id :: seen)

def dedup (items : List Item) : List Item := dedupAux items []

/-- The ids accumulated in `seen` after `dedup` has walked `items`. -/
def seenAfter : List Item → List String → List String
  | [], seen => seen
  | i :: rest, seen =>
    if i.id ∈ seen then seenAfter rest seen
    else seenAfter rest (i.id :: seen)

/-- Lines 397-401 of app.js: recency filter then descending sort of the
flattened fetch results. -/
def freshBatch (now : Int) (fetched : List Item) : List Item :=
  sortByPublishedDesc
    (fetched.filter fun item => decide (now - TIME_WINDOW_MS ≤ item.publishedAt))

/-- `loadFeeds`: first-load path replaces the collection with the deduped
fresh batch; the background path stages the not-yet-present fresh items as
`pendingNew` when there are any, and otherwise leaves the state alone.
Rendering and DOM updates are presentation-layer effects outside the
model. -/
def loadFeeds (s : AppState) (isFirstLoad : Bool) (now : Int)
    (fetched : List Item) : AppState :=
  let fresh := freshBatch now fetched
  if isFirstLoad then
    { s with allItems := dedup fresh }
  else
    let existingIds : List String := s.allItems.map fun i => i.id
    let newItems := fresh.filter fun i => decide (i.id ∉ existingIds)
    if newItems.length > 0 then { s with pendingNew := newItems } else s

/-- `applyPendingNew`: no-op on an empty pending set; otherwise drop the
staged items whose id is by now in the collection, prepend, dedup, re-sort
descending, and clear the pending set. -/
def applyPendingNew (s : AppState) : AppState :=
  if s.pendingNew.length = 0 then s
  else
    let existingIds : List String := s.allItems.map fun i => i.id
    let toAdd := s.pendingNew.filter fun i => decide (i.id ∉ existingIds)
    { allItems := sortByPublishedDesc (dedup (toAdd ++ s.allItems)),
      pendingNew := [] }

/-! ## Derived predicates -/

/-- The `id` values of the list are pairwise distinct. -/
def idNodup (items : List Item) : Prop :=
  items.Pairwise fun a b => a.id ≠ b.id

/-- Sorted descending by `publishedAt` (ties allowed). -/
def SortedDesc (items : List Item) : Prop :=
  items.Pairwise fun a b => b.publishedAt ≤ a.publishedAt

/-- Sorted strictly descending by `publishedAt`. -/
def StrictSortedDesc (items : List Item) : Prop :=
  items.Pairwise fun a b => b.publishedAt < a.publishedAt

instance : DecidablePred idNodup := fun _ => List.instDecidablePairwise _
instance : DecidablePred SortedDesc := fun _ => List.instDecidablePairwise _
instance : DecidablePred StrictSortedDesc := fun _ => List.instDecidablePairwise _

/-! ## Helper lemmas about `dedup` and the sort -/

theorem dedupAux_sublist : ∀ (xs : List Item) (seen : List String),
    List.Sublist (dedupAux xs seen) xs
  | [], _ => List.Sublist.refl _
  | i :: rest, seen => by
    simp only [dedupAux]
    split
    · exact (dedupAux_sublist rest seen).cons i
    · exact (dedupAux_sublist rest (i.id :: seen)).cons₂ i

theorem mem_dedupAux_not_seen : ∀ (xs : List Item) (seen : List String) (x : Item),
    x ∈ dedupAux xs seen → x.id ∉ seen := by
  intro xs
  induction xs with
  | nil => intro seen x h; simp [dedupAux] at h
  | cons i rest ih =>
    intro seen x h
    simp only [dedupAux] at h
    by_cases hmem : i.id ∈ seen
    · rw [if_pos hmem] at h
      exact ih seen x h
    · rw [if_neg hmem] at h
      rcases List.mem_cons.mp h with rfl | h'
      · exact hmem
      · intro hx
        exact ih _ x h' (List.mem_cons_of_mem _ hx)

theorem idNodup_dedupAux : ∀ (xs : List Item) (seen : List String),
    (dedupAux xs seen).Pairwise fun a b => a.id ≠ b.id := by
  intro xs
  induction xs with
  | nil => intro seen; simp [dedupAux]
  | cons i rest ih =>
    intro seen
    simp only [dedupAux]
    by_cases hmem : i.id ∈ seen
    · rw [if_pos hmem]; exact ih seen
    · rw [if_neg hmem]
      refine List.Pairwise.cons ?_ (ih _)
      intro b hb
      have hni := mem_dedupAux_not_seen _ _ _ hb
      intro heq
      exact hni (by rw [← heq]; exact List.mem_cons_self _ _)

theorem idNodup_dedup (xs : List Item) : idNodup (dedup xs) :=
  idNodup_dedupAux xs []

theorem dedupAux_eq_self : ∀ (ys : List Item) (seen : List String),
    (ys.Pairwise fun a b => a.id ≠ b.id) → (∀ y ∈ ys, y.id ∉ seen) →
    dedupAux ys seen = ys := by
  intro ys
  induction ys with
  | nil => intro seen _ _; rfl
  | cons i rest ih =>
    intro seen hnd hns
    have hmem : i.id ∉ seen := hns i (List.mem_cons_self _ _)
    simp only [dedupAux, if_neg hmem]
    congr 1
    apply ih _ (List.Pairwise.of_cons hnd)
    intro y hy hcon
    rcases List.mem_cons.mp hcon with heq | hin
    · exact (List.pairwise_cons.mp hnd).1 y hy heq.symm
    · exact hns y (List.mem_cons_of_mem _ hy) hin

theorem dedupAux_append : ∀ (xs ys : List Item) (seen : List String),
    dedupAux (xs ++ ys) seen = dedupAux xs seen ++ dedupAux ys (seenAfter xs seen) := by
  intro xs
  induction xs with
  | nil => intro ys seen; rfl
  | cons i rest ih =>
    intro ys seen
    simp only [List.cons_append, dedupAux, seenAfter, List.append_eq]
    by_cases hmem : i.id ∈ seen
    · simp only [if_pos hmem, ih]
    · simp only [if_neg hmem, ih, List.cons_append]

theorem mem_seenAfter : ∀ (xs : List Item) (seen : List String) (a : String),
    a ∈ seenAfter xs seen ↔ a ∈ seen ∨ a ∈ xs.map fun i => i.id := by
  intro xs
  induction xs with
  | nil =>
    intro seen a
    simp [seenAfter]
  | cons i rest ih =>
    intro seen a
    simp only [seenAfter, List.map_cons, List.mem_cons]
    by_cases hmem : i.id ∈ seen
    · rw [if_pos hmem, ih]
      constructor
      · rintro (h | h)
        · exact Or.inl h
        · exact Or.inr (Or.inr h)
      · rintro (h | rfl | h)
        · exact Or.inl h
        · exact Or.inl hmem
        · exact Or.inr h
    · rw [if_neg hmem, ih]
      simp only [List.mem_cons]
      tauto

/-- When the tail's ids are pairwise distinct and disjoint from the ids of
the front, `dedup` leaves the tail untouched. -/
theorem dedup_append_disjoint (xs ys : List Item)
    (hnd : ys.Pairwise fun a b => a.id ≠ b.id)
    (hdisj : ∀ y ∈ ys, y.id ∉ xs.map fun i => i.id) :
    dedup (xs ++ ys) = dedup xs ++ ys := by
  unfold dedup
  rw [dedupAux_append]
  congr 1
  apply dedupAux_eq_self _ _ hnd
  intro y hy hmem
  rcases (mem_seenAfter xs [] y.id).mp hmem with h | h
  · simp at h
  · exact hdisj y hy h

theorem pubLe_trans : ∀ (a b c : Item), pubLe a b → pubLe b c → pubLe a c := by
  intro a b c hab hbc
  simp only [pubLe, decide_eq_true_eq] at *
  omega

theorem pubLe_total : ∀ (a b : Item), pubLe a b || pubLe b a := by
  intro a b
  simp only [pubLe, Bool.or_eq_true, decide_eq_true_eq]
  omega

theorem sortByPublishedDesc_perm (l : List Item) : (sortByPublishedDesc l).Perm l :=
  List.mergeSort_perm l pubLe

theorem sortByPublishedDesc_sorted (l : List Item) :
    SortedDesc (sortByPublishedDesc l) := by
  have h : (List.mergeSort l pubLe).Pairwise (fun a b => pubLe a b = true) :=
    @List.sorted_mergeSort Item pubLe pubLe_trans pubLe_total l
  exact List.Pairwise.imp (fun hab => by simpa [pubLe] using hab) h

theorem idNodup_of_perm {l₁ l₂ : List Item} (p : l₁.Perm l₂) (h : idNodup l₁) :
    idNodup l₂ := by
  have hs : Symmetric fun a b : Item => a.id ≠ b.id := fun _ _ hab => Ne.symm hab
  exact (List.Perm.pairwise_iff @hs p).mp h

/-! ## Concrete fixtures used by witnesses and counterexamples -/

def cItemA : Item := ⟨"a", "ta", "a", 0, "mako", "", none⟩

def cItemB : Item := ⟨"b", "tb", "b", 0, "walla", "", none⟩

def cItemC : Item := ⟨"c", "tc", "c", 5000, "ynet", "", none⟩

def cDupFirst : Item := ⟨"x", "first", "x", 0, "mako", "", none⟩

def cDupSecond : Item := ⟨"x", "second", "x", 0, "ynet", "", none⟩

def cStale : Item := ⟨"s", "t", "s", 0, "mako", "", none⟩

def cFresh : Item := ⟨"f", "t", "f", 1000000000, "mako", "", none⟩

def tz0 : TZPolicy := ⟨fun _ => 0⟩

def plat0 : Platform := ⟨fun _ => [], id, id, fun _ => none⟩

def cGoodRec : XmlRecord :=
  ⟨"t", "l", none, some (DateToken.isoZ ⟨2024, 6, 10, 0, 0, 0⟩), none, none,
    "", "", "", none, false, none, none, none, ""⟩

def cBadRec : XmlRecord :=
  ⟨"t", "", none, some (DateToken.isoZ ⟨2024, 6, 10, 0, 0, 0⟩), none, none,
    "", "", "", none, false, none, none, none, ""⟩

def cPlatGood : Platform := ⟨fun _ => [cGoodRec], id, id, fun _ => none⟩

def cBadJson : RawJsonItem :=
  ⟨some "t", none, some (DateToken.isoZ ⟨2024, 6, 10, 0, 0, 0⟩), none, none, none, none⟩

def cGoodJson : RawJsonItem :=
  ⟨some "g1", some "lg1", some (DateToken.isoZ ⟨2024, 6, 10, 0, 0, 0⟩),
    none, none, none, none⟩

def cGoodJson2 : RawJsonItem :=
  ⟨some "g2", some "lg2", some (DateToken.isoZ ⟨2024, 6, 10, 1, 0, 0⟩),
    none, none, none, none⟩



/-! ## Unfolding lemmas for the engine's two entry points -/

theorem loadFeeds_first_allItems (s : AppState) (now : Int) (fetched : List Item) :
    (loadFeeds s true now fetched).allItems = dedup (freshBatch now fetched) := rfl

theorem loadFeeds_background_allItems (s : AppState) (now : Int) (fetched : List Item) :
    (loadFeeds s false now fetched).allItems = s.allItems := by
  unfold loadFeeds
  dsimp only
  rw [if_neg (by decide : ¬ ((false : Bool) = true))]
  split <;> rfl

theorem loadFeeds_background_pendingNew (s : AppState) (now : Int) (fetched : List Item) :
    (loadFeeds s false now fetched).pendingNew = s.pendingNew ∨
    (loadFeeds s false now fetched).pendingNew =
      (freshBatch now fetched).filter fun i => decide (i.id ∉ s.allItems.map fun j => j.id) := by
  unfold loadFeeds
  dsimp only
  rw [if_neg (by decide : ¬ ((false : Bool) = true))]
  split
  · exact Or.inr rfl
  · exact Or.inl rfl

theorem applyPendingNew_of_ne (s : AppState) (h : s.pendingNew ≠ []) :
    applyPendingNew s =
      { allItems := sortByPublishedDesc (dedup
          ((s.pendingNew.filter fun i => decide (i.id ∉ s.allItems.map fun j => j.id))
            ++ s.allItems)),
        pendingNew := [] } := by
  unfold applyPendingNew
  rw [if_neg (mt List.length_eq_zero.mp h)]

/-- The items actually added by a commit have ids disjoint from the ids of
the collection, so `dedup` leaves the old collection untouched. -/
theorem dedup_toAdd_append (s : AppState) (hids : idNodup s.allItems) :
    dedup ((s.pendingNew.filter fun i => decide (i.id ∉ s.allItems.map fun j => j.id))
        ++ s.allItems)
      = dedup (s.pendingNew.filter fun i => decide (i.id ∉ s.allItems.map fun j => j.id))
        ++ s.allItems := by
  apply dedup_append_disjoint _ _ hids
  intro y hy hmem
  rcases List.mem_map.mp hmem with ⟨z, hz, hzy⟩
  have hcond := (List.mem_filter.mp hz).2
  rw [decide_eq_true_eq] at hcond
  exact hcond (hzy.symm ▸ List.mem_map_of_mem _ hy)


/-! ## C1 -/

/-- C1 (amended): after the first-load path and after every commit of a
non-empty pending set (or a no-op commit from a state already satisfying
it), the collection is sorted descending by `publishedAt` — non-strictly,
ties are possible — and its `id` values are pairwise distinct. -/
theorem collection_sorted_desc_and_ids_distinct (s : AppState) (now : Int)
    (fetched : List Item)
    (hsort : SortedDesc s.allItems) (hids : idNodup s.allItems) :
    (SortedDesc (loadFeeds s true now fetched).allItems ∧
      idNodup (loadFeeds s true now fetched).allItems) ∧
    (SortedDesc (applyPendingNew s).allItems ∧
      idNodup (applyPendingNew s).allItems) := by
  constructor
  · rw [loadFeeds_first_allItems]
    constructor
    · exact List.Pairwise.sublist (dedupAux_sublist _ _) (sortByPublishedDesc_sorted _)
    · exact idNodup_dedup _
  · by_cases hp : s.pendingNew = []
    · unfold applyPendingNew
      rw [if_pos (by simp [hp])]
      exact ⟨hsort, hids⟩
    · rw [applyPendingNew_of_ne s hp]
      constructor
      · exact sortByPublishedDesc_sorted _
      · exact idNodup_of_perm (sortByPublishedDesc_perm _).symm (idNodup_dedup _)

theorem collection_sorted_desc_and_ids_distinct_witness :
    (SortedDesc (loadFeeds ⟨[cItemC], [cItemA]⟩ true 0 [cItemA, cItemB]).allItems ∧
      idNodup (loadFeeds ⟨[cItemC], [cItemA]⟩ true 0 [cItemA, cItemB]).allItems) ∧
    (SortedDesc (applyPendingNew ⟨[cItemC], [cItemA]⟩).allItems ∧
      idNodup (applyPendingNew ⟨[cItemC], [cItemA]⟩).allItems) :=
  collection_sorted_desc_and_ids_distinct ⟨[cItemC], [cItemA]⟩ 0 [cItemA, cItemB]
    (by decide) (by decide)

unseal List.merge List.mergeSort in
/-- C1 counterexample: two distinct items carrying the same `publishedAt`
both survive the first load, so the committed collection is *not* strictly
descending — the sort comparator admits ties. -/
theorem firstLoad_not_strictly_sorted :
    ¬ StrictSortedDesc (loadFeeds ⟨[], []⟩ true 0 [cItemA, cItemB]).allItems := by
  decide

/-! ## C10 -/

/-- C10: a commit never removes or replaces an existing item — every item
of a collection with pairwise-distinct ids (the reachable-state invariant)
is still present, with all its fields unchanged, after `applyPendingNew`,
and the collection's length never shrinks. -/
theorem commit_preserves_existing_items (s : AppState) (x : Item)
    (hids : idNodup s.allItems) (hx : x ∈ s.allItems) :
    x ∈ (applyPendingNew s).allItems ∧
    s.allItems.length ≤ (applyPendingNew s).allItems.length := by
  by_cases hp : s.pendingNew = []
  · unfold applyPendingNew
    rw [if_pos (by simp [hp])]
    exact ⟨hx, le_refl _⟩
  · rw [applyPendingNew_of_ne s hp]
    have heq := dedup_toAdd_append s hids
    constructor
    · have hmem : x ∈ dedup ((s.pendingNew.filter fun i =>
          decide (i.id ∉ s.allItems.map fun j => j.id)) ++ s.allItems) := by
        rw [heq]
        exact List.mem_append_right _ hx
      exact ((sortByPublishedDesc_perm _).mem_iff).mpr hmem
    · have hlen := (sortByPublishedDesc_perm (dedup
        ((s.pendingNew.filter fun i => decide (i.id ∉ s.allItems.map fun j => j.id))
          ++ s.allItems))).length_eq
      rw [hlen, heq, List.length_append]
      omega

theorem commit_preserves_existing_items_witness :
    cItemC ∈ (applyPendingNew ⟨[cItemC], [cItemA]⟩).allItems ∧
    (AppState.mk [cItemC] [cItemA]).allItems.length ≤
      (applyPendingNew ⟨[cItemC], [cItemA]⟩).allItems.length :=
  commit_preserves_existing_items ⟨[cItemC], [cItemA]⟩ cItemC (by decide) (by decide)

/-! ## C2 -/

/-- C2 (amended): the background path never touches the collection — only
commit does — and a commit of a non-empty pending set clears the pending
set and yields, up to ordering, the old collection plus the staged items
minus those whose id is by then already in the collection *and minus later
staged duplicates of an earlier staged id* (the staged set itself is not
id-distinct, see C9, and `dedup` keeps only the first of each id). -/
theorem background_stages_then_commit_adds (s : AppState) (now : Int)
    (fetched : List Item) (hids : idNodup s.allItems) (hp : s.pendingNew ≠ []) :
    (loadFeeds s false now fetched).allItems = s.allItems ∧
    (applyPendingNew s).pendingNew = [] ∧
    (applyPendingNew s).allItems.Perm
      ((dedup (s.pendingNew.filter fun i =>
          decide (i.id ∉ s.allItems.map fun j => j.id))) ++ s.allItems) := by
  refine ⟨loadFeeds_background_allItems s now fetched, ?_, ?_⟩
  · rw [applyPendingNew_of_ne s hp]
  · rw [applyPendingNew_of_ne s hp]
    have heq := dedup_toAdd_append s hids
    calc (sortByPublishedDesc (dedup ((s.pendingNew.filter fun i =>
            decide (i.id ∉ s.allItems.map fun j => j.id)) ++ s.allItems))).Perm
          (dedup ((s.pendingNew.filter fun i =>
            decide (i.id ∉ s.allItems.map fun j => j.id)) ++ s.allItems)) :=
          sortByPublishedDesc_perm _
      _ = (dedup (s.pendingNew.filter fun i =>
            decide (i.id ∉ s.allItems.map fun j => j.id))) ++ s.allItems := heq

theorem background_stages_then_commit_adds_witness :
    (loadFeeds ⟨[cItemC], [cItemA]⟩ false 0 [cItemB]).allItems =
      (AppState.mk [cItemC] [cItemA]).allItems ∧
    (applyPendingNew ⟨[cItemC], [cItemA]⟩).pendingNew = [] ∧
    (applyPendingNew ⟨[cItemC], [cItemA]⟩).allItems.Perm
      ((dedup ((AppState.mk [cItemC] [cItemA]).pendingNew.filter fun i =>
          decide (i.id ∉ (AppState.mk [cItemC] [cItemA]).allItems.map fun j => j.id)))
        ++ (AppState.mk [cItemC] [cItemA]).allItems) :=
  background_stages_then_commit_adds ⟨[cItemC], [cItemA]⟩ 0 [cItemB]
    (by decide) (by decide)

unseal List.merge List.mergeSort in
/-- C2 counterexample: the staged set may contain two items with the same
id (see C9); at commit the later one is dropped even though its id never
became a duplicate of the collection in the interim (the collection here
is empty throughout), so "exactly the staged items minus interim
duplicates" are *not* all added. -/
theorem commit_drops_later_staged_duplicate :
    cDupSecond ∈ (AppState.mk ([] : List Item) [cDupFirst, cDupSecond]).pendingNew ∧
    cDupSecond.id ∉ (([] : List Item).map fun i => i.id) ∧
    cDupSecond ∉ (applyPendingNew ⟨[], [cDupFirst, cDupSecond]⟩).allItems := by
  decide


/-! ## C3 -/

/-- C3 (amended): an item older than the recency window at cycle time is
excluded from that cycle's fresh batch, hence never enters the collection
through that cycle's first load and is never among the items that cycle
stages; but it may *remain* in the collection if an earlier cycle admitted
it while it was fresh (the code never evicts). -/
theorem stale_item_not_added_by_cycle (s : AppState) (now : Int)
    (fetched : List Item) (item : Item)
    (hstale : item.publishedAt < now - TIME_WINDOW_MS) :
    item ∉ freshBatch now fetched ∧
    item ∉ (loadFeeds s true now fetched).allItems ∧
    ((loadFeeds s false now fetched).pendingNew ≠ s.pendingNew →
      item ∉ (loadFeeds s false now fetched).pendingNew) := by
  have hfresh : item ∉ freshBatch now fetched := by
    intro hmem
    have hmem' := ((sortByPublishedDesc_perm _).mem_iff).mp hmem
    have hcond := (List.mem_filter.mp hmem').2
    rw [decide_eq_true_eq] at hcond
    omega
  refine ⟨hfresh, ?_, ?_⟩
  · rw [loadFeeds_first_allItems]
    intro hmem
    exact hfresh ((dedupAux_sublist _ _).mem hmem)
  · intro hchange hmem
    rcases loadFeeds_background_pendingNew s now fetched with h | h
    · exact hchange h
    · rw [h] at hmem
      exact hfresh (List.mem_filter.mp hmem).1

theorem stale_item_not_added_by_cycle_witness :
    cStale ∉ freshBatch 1000000000 [cStale, cFresh] ∧
    cStale ∉ (loadFeeds ⟨[], []⟩ true 1000000000 [cStale, cFresh]).allItems ∧
    ((loadFeeds ⟨[], []⟩ false 1000000000 [cStale, cFresh]).pendingNew ≠
        (AppState.mk ([] : List Item) []).pendingNew →
      cStale ∉ (loadFeeds ⟨[], []⟩ false 1000000000 [cStale, cFresh]).pendingNew) :=
  stale_item_not_added_by_cycle ⟨[], []⟩ 1000000000 [cStale, cFresh] cStale (by decide)

unseal List.merge List.mergeSort in
/-- C3 counterexample: an item admitted while fresh at the first load is
re-fetched by a later cycle after it has aged past the window; the cycle
filters it from its batch but never evicts it, so immediately after that
cycle's commit the item — now older than `now − TIME_WINDOW_MS` and
fetched by the cycle — is still present in the committed collection. -/
theorem stale_refetched_item_still_present :
    cStale.publishedAt < 1000000000 - TIME_WINDOW_MS ∧
    cStale ∈ (applyPendingNew (loadFeeds (loadFeeds ⟨[], []⟩ true 0 [cStale])
      false 1000000000 [cStale, cFresh])).allItems := by
  decide

/-! ## C9 -/

/-- C9 (amended): deduplication by id (first-seen-wins) is applied to the
batch on the first-load path, and again at commit, so the committed
collection always has pairwise-distinct ids; but the Pending Set staged by
a background refresh is the filtered fresh batch *as is*, with no
deduplication, and may therefore contain duplicate ids. -/
theorem dedup_applied_at_first_load_and_commit (s : AppState) (now : Int)
    (fetched : List Item) (hp : s.pendingNew ≠ []) :
    idNodup (loadFeeds s true now fetched).allItems ∧
    idNodup (applyPendingNew s).allItems ∧
    ((loadFeeds s false now fetched).pendingNew = s.pendingNew ∨
      (loadFeeds s false now fetched).pendingNew =
        (freshBatch now fetched).filter fun i =>
          decide (i.id ∉ s.allItems.map fun j => j.id)) := by
  refine ⟨?_, ?_, loadFeeds_background_pendingNew s now fetched⟩
  · rw [loadFeeds_first_allItems]
    exact idNodup_dedup _
  · rw [applyPendingNew_of_ne s hp]
    exact idNodup_of_perm (sortByPublishedDesc_perm _).symm (idNodup_dedup _)

theorem dedup_applied_at_first_load_and_commit_witness :
    idNodup (loadFeeds ⟨[cItemA], [cItemB]⟩ true 0 [cDupFirst, cDupSecond]).allItems ∧
    idNodup (applyPendingNew ⟨[cItemA], [cItemB]⟩).allItems ∧
    ((loadFeeds ⟨[cItemA], [cItemB]⟩ false 0 [cDupFirst, cDupSecond]).pendingNew =
        (AppState.mk [cItemA] [cItemB]).pendingNew ∨
      (loadFeeds ⟨[cItemA], [cItemB]⟩ false 0 [cDupFirst, cDupSecond]).pendingNew =
        (freshBatch 0 [cDupFirst, cDupSecond]).filter fun i =>
          decide (i.id ∉ (AppState.mk [cItemA] [cItemB]).allItems.map fun j => j.id)) :=
  dedup_applied_at_first_load_and_commit ⟨[cItemA], [cItemB]⟩ 0 [cDupFirst, cDupSecond]
    (by decide)

unseal List.merge List.mergeSort in
/-- C9 counterexample: a background refresh whose batch contains two items
with the same id stages both — `pendingNew` receives the filtered fresh
batch without deduplication, so its ids are not pairwise distinct. -/
theorem staged_pending_has_duplicate_ids :
    ¬ idNodup (loadFeeds ⟨[], []⟩ false 0 [cDupFirst, cDupSecond]).pendingNew := by
  decide


/-! ## C4 -/

/-- C4: exceptions thrown inside a strategy (`Outcome.throws`, i.e. a
network error, timeout, or malformed payload, surfacing as `Except.error`
from the strategy body) are all consumed by the `catch` wrapper
(`catchStrat`), so `fetchFeed` is a total function into item lists and
never propagates an exception; and whenever every strategy fails — by
throwing, by a non-ok status, or by producing nothing — the result is the
empty sequence. -/
theorem fetchFeed_total_failure_empty (plat : Platform) (tz : TZPolicy)
    (feedName : String) (o1 : Outcome DirectResp) (o2 : Outcome Rss2JsonResp)
    (o3 : Outcome AllOriginsResp)
    (h1 : catchStrat (strat1 plat tz feedName o1) = none)
    (h2 : catchStrat (strat2 plat tz feedName o2) = none)
    (h3 : catchStrat (strat3 plat tz feedName o3) = none) :
    fetchFeed plat tz feedName o1 o2 o3 = [] := by
  unfold fetchFeed
  rw [h1, h2, h3]

theorem fetchFeed_total_failure_empty_witness :
    fetchFeed plat0 tz0 "mako" Outcome.throws Outcome.throws Outcome.throws = [] :=
  fetchFeed_total_failure_empty plat0 tz0 "mako" Outcome.throws Outcome.throws
    Outcome.throws rfl rfl rfl

/-! ## C5 -/

/-- C5 (amended): the *direct* strategy advances to the proxies unless it
produced at least one item (a successful request whose payload parses to
zero items behaves exactly like a failed request); the *rss2json*
strategy, however, short-circuits as soon as the response is ok with
status `"ok"` and a non-empty raw `items` array — it returns whatever
normalisation produces, even an empty list, and the allorigins strategy is
then never attempted. -/
theorem direct_advances_on_zero_items_rss2json_does_not (plat : Platform)
    (tz : TZPolicy) (feedName : String) (r1 : DirectResp)
    (o2 : Outcome Rss2JsonResp) (o3 : Outcome AllOriginsResp)
    (hempty : parseRssXml plat tz r1.text feedName = []) :
    fetchFeed plat tz feedName (Outcome.resp r1) o2 o3 =
      fetchFeed plat tz feedName Outcome.throws o2 o3 ∧
    (∀ (r2 : Rss2JsonResp) (its : List RawJsonItem),
      r2.ok = true → r2.status = "ok" → r2.items = some its → its ≠ [] →
      fetchFeed plat tz feedName Outcome.throws (Outcome.resp r2) o3 =
        parseRss2JsonItems plat tz its feedName) := by
  constructor
  · have h1 : catchStrat (strat1 plat tz feedName (Outcome.resp r1)) = none := by
      unfold strat1 catchStrat
      by_cases hok : r1.ok
      · simp [hok, hempty]
      · simp [hok]
    unfold fetchFeed
    rw [h1]
    rfl
  · intro r2 its hok hstat hits hne
    have hlen : ¬ its.length = 0 := fun h => hne (List.length_eq_zero.mp h)
    have h2 : catchStrat (strat2 plat tz feedName (Outcome.resp r2)) =
        some (parseRss2JsonItems plat tz its feedName) := by
      unfold strat2 catchStrat
      simp [hok, hstat, hits, hlen]
    unfold fetchFeed
    rw [h2]
    rfl

theorem direct_advances_on_zero_items_rss2json_does_not_witness :
    fetchFeed plat0 tz0 "mako" (Outcome.resp ⟨true, "x"⟩) Outcome.throws
        Outcome.throws =
      fetchFeed plat0 tz0 "mako" Outcome.throws Outcome.throws Outcome.throws ∧
    (∀ (r2 : Rss2JsonResp) (its : List RawJsonItem),
      r2.ok = true → r2.status = "ok" → r2.items = some its → its ≠ [] →
      fetchFeed plat0 tz0 "mako" Outcome.throws (Outcome.resp r2) Outcome.throws =
        parseRss2JsonItems plat0 tz0 its "mako") :=
  direct_advances_on_zero_items_rss2json_does_not plat0 tz0 "mako" ⟨true, "x"⟩
    Outcome.throws Outcome.throws (by decide)

/-- C5 counterexample: the direct strategy throws; the rss2json response
is ok with one raw item whose `link` is missing, so normalisation yields
zero items, yet `fetchFeed` returns that empty list without trying the
allorigins strategy — which would have delivered a non-empty result. -/
theorem rss2json_zero_item_short_circuit :
    fetchFeed cPlatGood tz0 "mako" Outcome.throws
        (Outcome.resp ⟨true, "ok", some [cBadJson]⟩)
        (Outcome.resp ⟨true, some "x"⟩) = [] ∧
    catchStrat (strat3 cPlatGood tz0 "mako" (Outcome.resp ⟨true, some "x"⟩)) ≠ none ∧
    catchStrat (strat3 cPlatGood tz0 "mako" (Outcome.resp ⟨true, some "x"⟩)) ≠
      some [] := by
  refine ⟨by decide, by decide, by decide⟩

/-! ## C6 -/

/-- C6 (code bug in `parsePubDate`): the claim holds of app.js's
`parseFeedDate` (second and third conjuncts illustrate an ISO `Z` token
and an RFC-2822 `+0300` token resolving to the instant its embedded offset
dictates), but `parsePubDate`'s trusted-offset regexp
`/[Z+\-]\d{2}:?\d{2}$/` fails to match a token *ending* in `Z`, so the
code appends a second `Z` and produces an invalid date: an ISO-8601 token
with UTC marker is rejected instead of parsed (first conjunct), against
the claim and against the function's own comment ("If the string already
has a timezone indicator, trust it"). -/
theorem parsePubDate_drops_isoZ_token :
    parsePubDate (DateToken.isoZ ⟨2024, 6, 10, 13, 0, 0⟩) = none ∧
    parseFeedDate tz0 (some (DateToken.isoZ ⟨2024, 6, 10, 13, 0, 0⟩)) =
      some 1718024400000 ∧
    parsePubDate (DateToken.rfc2822 ⟨2024, 6, 10, 16, 0, 0⟩ 180) =
      some (1718035200000 - 180 * 60000) := by
  refine ⟨rfl, by decide, by decide⟩

/-! ## C7 -/

/-- C7: the no-offset proxy token `"2024-06-10 16:00:00"` resolves under
the UTC-assume policy (`parsePubDate`, the earlier revision) to exactly
the instant `2024-06-10T16:00:00Z` (first two conjuncts identify that
instant as epoch 1718035200000 via the `Z` form), and under the
local-assume policy (`parseFeedDate`, app.js) to the same wall-clock
fields shifted by the configured local zone's offset; both are functions
of the token and the fixed configuration, so a literal always resolves to
the same instant for a given configuration. -/
theorem fmtB_policy_deterministic :
    parsePubDate (DateToken.fmtB ⟨2024, 6, 10, 16, 0, 0⟩) = some 1718035200000 ∧
    parseFeedDate tz0 (some (DateToken.isoZ ⟨2024, 6, 10, 16, 0, 0⟩)) =
      some 1718035200000 ∧
    (∀ tz : TZPolicy, parseFeedDate tz (some (DateToken.fmtB ⟨2024, 6, 10, 16, 0, 0⟩)) =
      some (1718035200000 - tz.offsetMin ⟨2024, 6, 10, 16, 0, 0⟩ * 60000)) := by
  refine ⟨by decide, by decide, ?_⟩
  intro tz
  have h : epochOfFields ⟨2024, 6, 10, 16, 0, 0⟩ = 1718035200000 := by decide
  simp [parseFeedDate, h]

/-! ## C8 -/

/-- C8: both item normalisers reject a raw record exactly when its title
is empty, its (resolved, trimmed) link is empty, or its date token is
missing or unparseable; and a rejected record has no effect on the items
produced for the sibling records of the same parse call. -/
theorem normaliser_rejects_iff_and_siblings_unaffected (plat : Platform)
    (tz : TZPolicy) (src : String) :
    (∀ rec : XmlRecord, normaliseXmlItem plat tz rec src = none ↔
      (rec.title = "" ∨ xmlLink rec = "" ∨ parseFeedDate tz (xmlDateToken rec) = none)) ∧
    (∀ item : RawJsonItem, normaliseJsonItem plat tz item src = none ↔
      (jsFalsy (item.title.map jsTrim) = true ∨
        jsFalsy (item.link.map jsTrim) = true ∨
        parseFeedDate tz item.pubDate = none)) ∧
    (∀ (xs ys : List XmlRecord) (rec : XmlRecord),
      normaliseXmlItem plat tz rec src = none →
      normaliseXmlItems plat tz (xs ++ rec :: ys) src =
        normaliseXmlItems plat tz (xs ++ ys) src) ∧
    (∀ (xs ys : List RawJsonItem) (item : RawJsonItem),
      normaliseJsonItem plat tz item src = none →
      parseRss2JsonItems plat tz (xs ++ item :: ys) src =
        parseRss2JsonItems plat tz (xs ++ ys) src) := by
  refine ⟨?_, ?_, ?_, ?_⟩
  · intro rec
    unfold normaliseXmlItem
    cases h : parseFeedDate tz (xmlDateToken rec) with
    | none => simp [h]
    | some ts =>
      by_cases ht : rec.title = "" <;> by_cases hl : xmlLink rec = "" <;>
        simp [h, ht, hl]
  · intro item
    unfold normaliseJsonItem
    by_cases h1 : jsFalsy (item.title.map jsTrim) <;>
      by_cases h2 : jsFalsy (item.link.map jsTrim) <;>
        cases h3 : parseFeedDate tz item.pubDate <;>
          simp [h1, h2, h3]
  · intro xs ys rec h
    unfold normaliseXmlItems
    simp [h]
  · intro xs ys item h
    unfold parseRss2JsonItems
    simp [h]

theorem normaliser_rejects_iff_and_siblings_unaffected_witness :
    parseRss2JsonItems plat0 tz0 ([cGoodJson] ++ cBadJson :: [cGoodJson2]) "s" =
      parseRss2JsonItems plat0 tz0 ([cGoodJson] ++ [cGoodJson2]) "s" :=
  (normaliser_rejects_iff_and_siblings_unaffected plat0 tz0 "s").2.2.2
    [cGoodJson] [cGoodJson2] cBadJson (by decide)

end Newsfeed
